import Mathlib

/-!
# spot: a verification development of `main.go`

The program is sequential glue around four collaborators: the token endpoint,
the catalog API (search, album listing), the filesystem (`os.MkdirAll`) and the
external tool `spotdl`.  The embedding makes the collaborators an explicit
`World`: each call is a function of its arguments and of the current state of
the outside world, returning a result and the next state.  Every Go function
of `main.go` becomes a Lean function that threads this state and returns, next
to its Go result, the ordered list of effects (`Event`) it performed.

Go strings are modelled by Lean strings.  A Go `error` is identified with its
message; `nil` is `none`.  A pointer that may be `nil` is an `Option`, and a
function that can stop in a run-time panic returns an `Outcome`.
-/

namespace Spot

/-! ## Data model -/

/-- A Go `error` value, identified with the text of `err.Error()`. -/
abbrev Error := String

/-- The fields of `spotify.FullArtist` (the program reads `Name` and `ID`). -/
structure FullArtist where
  Name : String
  ID : String
  URI : String
  Popularity : Nat
  Genres : List String
  deriving DecidableEq, Repr

/-- The Go zero value `spotify.FullArtist{}`. -/
def FullArtist.zero : FullArtist := ⟨"", "", "", 0, []⟩

/-- The type `spotify.FullArtistPage`: one page of artists. -/
structure FullArtistPage where
  Artists : List FullArtist
  deriving DecidableEq, Repr

/-- The type `spotify.SearchResult`, restricted to its field `Artists`.  In
the library the field is the pointer `*FullArtistPage`: it is `nil`, here
`none`, when the answer carries no `artists` object (a `200` answer with the
body `{}`, or a `204` answer), and the call still returns `err == nil`. -/
structure SearchResult where
  Artists : Option FullArtistPage
  deriving DecidableEq, Repr

/-- The fields of `spotify.SimpleAlbum`; `ExternalURLs` is a Go
`map[string]string`, kept as an association list read with `List.lookup`. -/
structure SimpleAlbum where
  Name : String
  ID : String
  AlbumType : String
  ExternalURLs : List (String × String)
  deriving DecidableEq, Repr

/-- The type `spotify.SimpleAlbumPage`: one page of albums. -/
structure SimpleAlbumPage where
  Albums : List SimpleAlbum
  deriving DecidableEq, Repr

/-- The handle `*spotify.Client`: it carries the bearer token it was built from. -/
structure Client where
  token : String
  deriving DecidableEq, Repr

/-- The command-line flags of `main`, after `flag.Parse`. -/
structure Flags where
  clientID : String
  clientSecret : String
  artistsStr : String
  market : String
  destDir : String
  deriving DecidableEq, Repr

/-- The flag defaults of `main.go` lines 22-26 (`spotify.CountryUSA` is `"US"`). -/
def Flags.defaults : Flags := ⟨"", "", "", "US", "./download"⟩

/-! ## Effects -/

/-- One call site of `log.Printf` in `main.go`, with its arguments. -/
inductive LogLine where
  | banner (q : String)
  | artistNotFound (q : String) (err : Error)
  | lookingForAlbums
  | albumsNotFound (err : Error)
  | foundAlbums (n : Nat)
  | downloading (albumName : String)
  | couldntDownload (err : Error)
  | footer (n : Nat)
  deriving DecidableEq, Repr

/-- The function `strings.Repeat` for a one-character string. -/
def repeatChar (c : Char) (n : Nat) : String := String.mk (List.replicate n c)

/-- The text each `log.Printf` call writes.  Line 64 passes one operand to a
format with two verbs, so Go prints the error under `%s` and
`%!v(MISSING)` for the second verb. -/
def LogLine.render : LogLine → String
  | .banner q => "----------" ++ q ++ "----------"
  | .artistNotFound q err => "artist '" ++ q ++ "' not found: " ++ err
  | .lookingForAlbums => "Looking for albums..."
  | .albumsNotFound err => "albums not found: " ++ err
  | .foundAlbums n => "found " ++ toString n ++ " albums"
  | .downloading albumName => "Downloading " ++ albumName
  | .couldntDownload err => "couldn't download album '" ++ err ++ "': %!v(MISSING)"
  | .footer n => "----------" ++ repeatChar '-' n ++ "----------"

/-- The effects of the program on the outside world, in the order performed. -/
inductive Event where
  /-- A `log.Fatalln` call: the message is written, then the process exits with status 1. -/
  | fatalln (msg : String)
  /-- A `log.Printf` call. -/
  | printf (line : LogLine)
  /-- The token exchange `config.Token(ctx)`. -/
  | token (clientID clientSecret : String)
  /-- The request `client.Search(ctx, q, SearchTypeArtist)`. -/
  | search (q : String)
  /-- The request `client.GetArtistAlbums(ctx, id, [album], Market(market))`. -/
  | getArtistAlbums (artistID market : String)
  /-- The call `os.MkdirAll(dir, perm)`. -/
  | mkdirAll (dir : String) (perm : Nat)
  /-- The call `cmd.Run()` of `exec.Command(name, args...)` with `cmd.Dir = dir`. -/
  | run (name : String) (args : List String) (dir : String)
  deriving DecidableEq, Repr

/-- The collaborators of the program.  `σ` is the state of the outside world
(catalog contents, filesystem, clock, network); every call may read and change
it.  Time-outs of the two 10 second contexts are errors returned by the call. -/
structure World (σ : Type) where
  Token : String → String → σ → Except Error String × σ
  Search : Client → String → σ → Except Error SearchResult × σ
  GetArtistAlbums : Client → String → String → σ → Except Error SimpleAlbumPage × σ
  MkdirAll : String → Nat → σ → Option Error × σ
  Run : String → List String → String → σ → Option Error × σ

/-- How a Go function ends: it returns a value, or it stops in a run-time
panic (here always the nil pointer dereference of line 97), which unwinds to
the runtime and ends the process with exit status 2. -/
inductive Outcome (α : Type) where
  | ret (a : α)
  | panic
  deriving DecidableEq, Repr

/-- The outcome of running a Go function: its return value, the effects it
performed, and the state of the world afterwards. -/
structure Ret (σ α : Type) where
  val : α
  events : List Event
  state : σ

/-! ## `searchArtist` (lines 88-104) -/

/-- The `for ... range result.Artists.Artists` loop of lines 97-103, with the
final `return` of line 103. -/
def searchArtist.scan (q : String) : List FullArtist → FullArtist × Option Error
  | [] => (FullArtist.zero, some "artist not found")
  | artist :: rest =>
    if artist.Name = q then (artist, none) else searchArtist.scan q rest

/-- The function `searchArtist` of lines 88-104.  Line 97 reads
`result.Artists.Artists` without a nil check: when `result.Artists` is `nil`
the function panics and returns neither an entity nor an error. -/
def searchArtist {σ : Type} (w : World σ) (client : Client) (q : String) (s : σ) :
    Ret σ (Outcome (FullArtist × Option Error)) :=
  match w.Search client q s with
  | (.error err, s1) => ⟨.ret (FullArtist.zero, some err), [Event.search q], s1⟩
  | (.ok result, s1) =>
    match result.Artists with
    | none => ⟨.panic, [Event.search q], s1⟩
    | some page => ⟨.ret (searchArtist.scan q page.Artists), [Event.search q], s1⟩

/-- The first entity in list order whose name equals the query, as the
specification words it. -/
def firstExactMatch (q : String) (candidates : List FullArtist) : Option FullArtist :=
  candidates.find? (fun a => decide (a.Name = q))

/-! ## `strings.Split` and `path.Join` (Go standard library)

Both are functions of the Go standard library, which is not part of the
repository; they are written here after their documented algorithm.  They work
on the characters of the string; the separators `,` and `/` are ASCII, so
splitting at the character and at the byte agree. -/

/-- The fields of `cs` between the occurrences of `sep`: `n` occurrences give
`n + 1` fields, and the empty input gives one empty field. -/
def splitFields (sep : Char) : List Char → List (List Char)
  | [] => [[]]
  | c :: cs =>
    if c = sep then [] :: splitFields sep cs
    else
      match splitFields sep cs with
      | [] => [[c]]
      | f :: fs => (c :: f) :: fs

/-- The call `strings.Split(s, sep)` for a separator of one character (the
program calls it with `","`). -/
def strings.Split (s : String) (sep : Char) : List String :=
  (splitFields sep s.data).map String.mk

/-- One step of the loop of `path.Clean`: `elem` is the next element of the
path (the text between two slashes) and `acc` the elements written so far, the
last one first.  An empty element and `.` are skipped; `..` removes the last
element when that is a real name, is kept on a relative path that cannot go
further back, and is dropped at the root; any other element is appended. -/
def path.cleanStep (rooted : Bool) (acc : List (List Char)) (elem : List Char) :
    List (List Char) :=
  if elem = [] ∨ elem = ['.'] then acc
  else if elem = ['.', '.'] then
    match acc with
    | [] => if rooted then [] else [['.', '.']]
    | top :: below =>
      if top = ['.', '.'] then (if rooted then acc else ['.', '.'] :: acc) else below
  else elem :: acc

/-- The elements that `path.Clean` keeps, in order. -/
def path.cleanElems (p : List Char) : List (List Char) :=
  ((splitFields '/' p).foldl (path.cleanStep (decide (p.head? = some '/'))) []).reverse

/-- The text of a path with the given elements: a leading slash when rooted,
the elements separated by single slashes, and `.` when that is empty. -/
def path.render (rooted : Bool) (elems : List (List Char)) : List Char :=
  let out := (if rooted then ['/'] else []) ++ List.intercalate ['/'] elems
  if out = [] then ['.'] else out

/-- The function `path.Clean` on the characters of the path. -/
def path.cleanChars (p : List Char) : List Char :=
  if p = [] then ['.']
  else path.render (decide (p.head? = some '/')) (path.cleanElems p)

/-- The function `path.Clean`: the shortest path name equivalent to `p` by
purely lexical processing. -/
def path.Clean (p : String) : String := String.mk (path.cleanChars p.data)

/-- The function `path.Join` on characters: leading empty elements are
skipped, the rest is joined with slashes and cleaned; when every element is
empty the result is empty. -/
def path.joinChars : List (List Char) → List Char
  | [] => []
  | e :: rest =>
    if e = [] then path.joinChars rest
    else path.cleanChars (List.intercalate ['/'] (e :: rest))

/-- The function `path.Join(elem...)`.  Its documentation reads: "Join joins
any number of path elements into a single path, separating them with slashes.
Empty elements are ignored.  The result is Cleaned." -/
def path.Join (elem : List String) : String :=
  String.mk (path.joinChars (elem.map String.data))

/-! ## `newClient`, `getAlbums`, `downloadAlbum` -/

/-- The function `newClient` of lines 72-86.  The Go result `(nil, err)` is
`.error err` and `(client, nil)` is `.ok client`. -/
def newClient {σ : Type} (w : World σ) (clientID clientSecret : String) (s : σ) :
    Ret σ (Except Error Client) :=
  match w.Token clientID clientSecret s with
  | (.error err, s1) =>
    ⟨.error ("config.Token: " ++ err), [Event.token clientID clientSecret], s1⟩
  | (.ok token, s1) => ⟨.ok ⟨token⟩, [Event.token clientID clientSecret], s1⟩

/-- The function `getAlbums` of lines 106-116; the `nil` slice is `[]`. -/
def getAlbums {σ : Type} (w : World σ) (client : Client) (artistID market : String)
    (s : σ) : Ret σ (List SimpleAlbum × Option Error) :=
  match w.GetArtistAlbums client artistID market s with
  | (.error err, s1) => ⟨([], some err), [Event.getArtistAlbums artistID market], s1⟩
  | (.ok result, s1) => ⟨(result.Albums, none), [Event.getArtistAlbums artistID market], s1⟩

/-- The destination directory computed at line 124.  `slugMake` stands for
`slug.Make` of the package `github.com/gosimple/slug`. -/
def albumDir (slugMake : String → String) (artistName : String) (album : SimpleAlbum)
    (destDir : String) : String :=
  path.Join [destDir, slugMake artistName, slugMake album.Name]

/-- The function `downloadAlbum` of lines 118-140; `0755` is `493`. -/
def downloadAlbum {σ : Type} (slugMake : String → String) (w : World σ)
    (artistName : String) (album : SimpleAlbum) (destDir : String) (s : σ) :
    Ret σ (Option Error) :=
  match album.ExternalURLs.lookup "spotify" with
  | none => ⟨some "album.ExternalURLs: missing key 'spotify'", [], s⟩
  | some url =>
    let dir := albumDir slugMake artistName album destDir
    match w.MkdirAll dir 493 s with
    | (some err, s1) => ⟨some ("os.MkdirAll: " ++ err), [Event.mkdirAll dir 493], s1⟩
    | (none, s1) =>
      match w.Run "spotdl" [url] dir s1 with
      | (some err, s2) =>
        ⟨some ("cmd.Run: " ++ err), [Event.mkdirAll dir 493, Event.run "spotdl" [url] dir], s2⟩
      | (none, s2) => ⟨none, [Event.mkdirAll dir 493, Event.run "spotdl" [url] dir], s2⟩

/-! ## `main` (lines 21-70) -/

/-- The `if err != nil` of lines 63-65: a failed `downloadAlbum` is logged. -/
def main.report : Option Error → List Event
  | some err => [Event.printf (.couldntDownload err)]
  | none => []

/-- The inner loop of lines 61-66 over the albums of one artist. -/
def main.albums {σ : Type} (slugMake : String → String) (w : World σ)
    (artistName destDir : String) : List SimpleAlbum → σ → Ret σ Unit
  | [], s => ⟨(), [], s⟩
  | album :: rest, s =>
    let r := downloadAlbum slugMake w artistName album destDir s
    let r2 := main.albums slugMake w artistName destDir rest r.state
    ⟨(), Event.printf (.downloading album.Name) ::
      (r.events ++ main.report r.val ++ r2.events), r2.state⟩

/-- The body of the outer loop, lines 45-68, for one query `q`.  A panic of
`searchArtist` is not recovered: nothing after line 47 runs. -/
def main.artist {σ : Type} (slugMake : String → String) (w : World σ) (client : Client)
    (market destDir q : String) (s : σ) : Ret σ (Outcome Unit) :=
  let r := searchArtist w client q s
  match r.val with
  | .panic => ⟨.panic, Event.printf (.banner q) :: r.events, r.state⟩
  | .ret (_, some err) =>
    ⟨.ret (), Event.printf (.banner q) :: (r.events ++ [Event.printf (.artistNotFound q err)]),
      r.state⟩
  | .ret (artist, none) =>
    let r2 := getAlbums w client artist.ID market r.state
    match r2.val with
    | (_, some err) =>
      ⟨.ret (), Event.printf (.banner q) :: (r.events ++ Event.printf .lookingForAlbums ::
          (r2.events ++ [Event.printf (.albumsNotFound err)])), r2.state⟩
    | (albums, none) =>
      let r3 := main.albums slugMake w artist.Name destDir albums r2.state
      ⟨.ret (), Event.printf (.banner q) :: (r.events ++ Event.printf .lookingForAlbums ::
          (r2.events ++ Event.printf (.foundAlbums albums.length) ::
            (r3.events ++ [Event.printf (.footer q.utf8ByteSize)]))), r3.state⟩

/-- The outer loop of lines 44-69 over the queries.  A panic in the body ends
the loop: the remaining queries are not processed. -/
def main.artists {σ : Type} (slugMake : String → String) (w : World σ) (client : Client)
    (market destDir : String) : List String → σ → Ret σ (Outcome Unit)
  | [], s => ⟨.ret (), [], s⟩
  | q :: rest, s =>
    let r := main.artist slugMake w client market destDir q s
    match r.val with
    | .panic => ⟨.panic, r.events, r.state⟩
    | .ret _ =>
      let r2 := main.artists slugMake w client market destDir rest r.state
      ⟨r2.val, r.events ++ r2.events, r2.state⟩

/-- The function `main` of lines 21-70, after `flag.Parse`.  The value is the
exit status of the process: `1` after `log.Fatalln`, `2` after a panic, `0` on
normal return. -/
def main {σ : Type} (slugMake : String → String) (w : World σ) (flags : Flags) (s : σ) :
    Ret σ Nat :=
  if flags.clientID = "" then
    ⟨1, [Event.fatalln "the clientID flag cannot be blank"], s⟩
  else if flags.clientSecret = "" then
    ⟨1, [Event.fatalln "the clientSecret flag cannot be blank"], s⟩
  else
    let r := newClient w flags.clientID flags.clientSecret s
    match r.val with
    | .error err => ⟨1, r.events ++ [Event.fatalln ("newClient: " ++ err)], r.state⟩
    | .ok client =>
      let r2 := main.artists slugMake w client flags.market flags.destDir
        (strings.Split flags.artistsStr ',') r.state
      match r2.val with
      | .panic => ⟨2, r.events ++ r2.events, r2.state⟩
      | .ret _ => ⟨0, r.events ++ r2.events, r2.state⟩

/-! ## Observations on a run -/

/-- The query of a search request. -/
def Event.searchQuery? : Event → Option String
  | .search q => some q
  | _ => none

/-- The queries of the search requests of a run, in order. -/
def searchQueries (t : List Event) : List String := t.filterMap Event.searchQuery?

/-- The calls that leave the process: token exchange, catalog requests,
directory creation and tool runs. -/
def Event.isCall : Event → Bool
  | .token _ _ => true
  | .search _ => true
  | .getArtistAlbums _ _ => true
  | .mkdirAll _ _ => true
  | .run _ _ _ => true
  | _ => false

/-- The release name announced at line 62, right before `downloadAlbum` is called. -/
def Event.downloadingName? : Event → Option String
  | .printf (.downloading n) => some n
  | _ => none

/-- The release names announced at line 62, one per call of `downloadAlbum`, in order. -/
def downloadingNames (t : List Event) : List String := t.filterMap Event.downloadingName?

/-- The directory of an `os.MkdirAll` call. -/
def Event.mkdirDir? : Event → Option String
  | .mkdirAll d _ => some d
  | _ => none

/-- The directories passed to `os.MkdirAll` during a run, in order. -/
def mkdirDirs (t : List Event) : List String := t.filterMap Event.mkdirDir?

/-- Whether the event is a run of the external tool. -/
def Event.isRun : Event → Bool
  | .run _ _ _ => true
  | _ => false

/-- The tool runs of a run, in order. -/
def toolRuns (t : List Event) : List Event := t.filter Event.isRun

/-- The error reported at line 49 for the query `q`, if the event is such a report. -/
def Event.searchFailure? (q : String) : Event → Option Error
  | .printf (.artistNotFound q1 err) => if q1 = q then some err else none
  | _ => none

/-- The failures reported for the query `q` at line 49 during a run. -/
def searchFailures (q : String) (t : List Event) : List Error :=
  t.filterMap (Event.searchFailure? q)

/-- Whether the release has an entry under the key `spotify`. -/
def SimpleAlbum.hasLink (album : SimpleAlbum) : Bool :=
  (album.ExternalURLs.lookup "spotify").isSome

/-- Every search that returns without error carries an artists page. -/
def World.pagesPresent {σ : Type} (w : World σ) : Prop :=
  ∀ client q s result, (w.Search client q s).1 = .ok result → result.Artists ≠ none

/-- A path element that `path.Clean` keeps as it stands: not empty, without a
slash, and neither `.` nor `..`. -/
def plainElem (e : String) : Prop :=
  e.data ≠ [] ∧ '/' ∉ e.data ∧ e.data ≠ ['.'] ∧ e.data ≠ ['.', '.']

instance (e : String) : Decidable (plainElem e) :=
  inferInstanceAs (Decidable (_ ∧ _ ∧ _ ∧ _))

/-- Whether a path starts at the root. -/
def path.rooted (p : String) : Bool := decide (p.data.head? = some '/')

/-- The destination root followed by the two slugs as further elements: the
elements `path.Clean` keeps of `destDir`, then `a`, then `b`. -/
def rootPlusTwo (destDir a b : String) : String :=
  String.mk (path.render (path.rooted destDir) (path.cleanElems destDir.data ++ [a.data, b.data]))

/-! ## A small world for the examples -/

/-- Two catalog entries whose names differ only in letter case. -/
def lowerBeatles : FullArtist := ⟨"the beatles", "id-lower", "spotify:artist:lower", 10, []⟩

/-- The entry with the exact name `The Beatles`. -/
def theBeatles : FullArtist := ⟨"The Beatles", "id-exact", "spotify:artist:exact", 90, ["rock"]⟩

/-- A release with a catalog link. -/
def abbeyRoad : SimpleAlbum :=
  ⟨"Abbey Road", "al-1", "album", [("spotify", "https://open.spotify.com/album/al-1")]⟩

/-- A release without a catalog link. -/
def unlinked : SimpleAlbum := ⟨"Help", "al-2", "album", [("other", "https://example.org/al-2")]⟩

/-- The catalog entry named `B`. -/
def artistB : FullArtist := ⟨"B", "id-b", "spotify:artist:b", 5, []⟩

/-- A world whose state counts the calls made so far.  The search for `A`
fails, the search for `B` returns the entry `B`, the search for `Z` is
answered `200` with the body `{}` (no artists page, no error), every other
search returns the two Beatles entries; the tool fails in the directory
`download/x/fail`. -/
def demoWorld : World Nat where
  Token := fun _ secret n => (if secret = "bad" then .error "401" else .ok "tok", n + 1)
  Search := fun _ q n =>
    (if q = "A" then .error "timeout"
     else if q = "B" then .ok ⟨some ⟨[artistB]⟩⟩
     else if q = "Z" then .ok ⟨none⟩
     else .ok ⟨some ⟨[lowerBeatles, theBeatles]⟩⟩, n + 1)
  GetArtistAlbums := fun _ _ _ n => (.ok ⟨[unlinked, abbeyRoad]⟩, n + 1)
  MkdirAll := fun dir _ n => (if dir = "" then some "mkdir : no such file" else none, n + 1)
  Run := fun _ _ dir n => (if dir = "download/x/fail" then some "exit status 1" else none, n + 1)

/-- A stand-in for `slug.Make` in the examples: every name becomes `x`. -/
def demoSlug : String → String := fun _ => "x"

/-- The values of `slug.Make` at the names `!!!` (a name made of punctuation
only, whose slug is empty) and `Abbey Road`. -/
def punctSlug : String → String :=
  fun n => if n = "!!!" then "" else if n = "Abbey Road" then "abbey-road" else "x"

/-! ## Theorems -/

theorem searchArtist.scan_eq_find (q : String) (l : List FullArtist) :
    searchArtist.scan q l =
      match firstExactMatch q l with
      | some a => (a, none)
      | none => (FullArtist.zero, some "artist not found") := by
  induction l with
  | nil => rfl
  | cons a rest ih =>
    by_cases h : a.Name = q
    · simp [searchArtist.scan, firstExactMatch, h]
    · simp only [searchArtist.scan, if_neg h, ih]
      simp [firstExactMatch, List.find?, h]

theorem firstExactMatch_some {q : String} {l : List FullArtist} {a : FullArtist}
    (h : firstExactMatch q l = some a) :
    a.Name = q ∧ ∃ before after, l = before ++ a :: after ∧ ∀ b ∈ before, b.Name ≠ q := by
  induction l with
  | nil => simp [firstExactMatch] at h
  | cons x rest ih =>
    by_cases hx : x.Name = q
    · have : x = a := by simpa [firstExactMatch, List.find?, hx] using h
      subst this
      exact ⟨hx, [], rest, rfl, by simp⟩
    · have h2 : firstExactMatch q rest = some a := by
        simpa [firstExactMatch, List.find?, hx] using h
      obtain ⟨h3, before, after, h4, h5⟩ := ih h2
      refine ⟨h3, x :: before, after, by simp [h4], ?_⟩
      intro b hb
      rcases List.mem_cons.mp hb with rfl | hb
      · exact hx
      · exact h5 b hb

theorem firstExactMatch_none {q : String} {l : List FullArtist} :
    firstExactMatch q l = none ↔ ∀ a ∈ l, a.Name ≠ q := by
  simp [firstExactMatch]

theorem searchArtist_ok {σ : Type} (w : World σ) (client : Client) (q : String) (s s1 : σ)
    (page : FullArtistPage) (h : w.Search client q s = (.ok ⟨some page⟩, s1)) :
    searchArtist w client q s =
      ⟨.ret (searchArtist.scan q page.Artists), [Event.search q], s1⟩ := by
  simp [searchArtist, h]

theorem searchArtist_error {σ : Type} (w : World σ) (client : Client) (q : String) (s s1 : σ)
    (err : Error) (h : w.Search client q s = (.error err, s1)) :
    searchArtist w client q s = ⟨.ret (FullArtist.zero, some err), [Event.search q], s1⟩ := by
  simp [searchArtist, h]

theorem searchArtist_nil_page {σ : Type} (w : World σ) (client : Client) (q : String)
    (s s1 : σ) (h : w.Search client q s = (.ok ⟨none⟩, s1)) :
    searchArtist w client q s = ⟨.panic, [Event.search q], s1⟩ := by
  simp [searchArtist, h]

/-- C1: when the search request returns a result list, `searchArtist` returns
the first entity of the list, in list order, whose `Name` equals the query
under exact string equality; whenever it returns an entity without error, that
entity has exactly the name `q` and every entity before it in the list has a
different name. -/
theorem searchArtist_first_exact_match {σ : Type} (w : World σ) (client : Client)
    (q : String) (s s1 : σ) (page : FullArtistPage)
    (h : w.Search client q s = (.ok ⟨some page⟩, s1)) :
    (∀ a, firstExactMatch q page.Artists = some a →
      (searchArtist w client q s).val = .ret (a, none)) ∧
    (∀ a, (searchArtist w client q s).val = .ret (a, none) →
      a.Name = q ∧ firstExactMatch q page.Artists = some a ∧
      ∃ before after, page.Artists = before ++ a :: after ∧
        ∀ b ∈ before, b.Name ≠ q) := by
  rw [searchArtist_ok w client q s s1 page h]
  simp only [searchArtist.scan_eq_find]
  constructor
  · intro a ha
    simp [ha]
  · intro a ha
    cases hf : firstExactMatch q page.Artists with
    | none => simp [hf] at ha
    | some b =>
      simp only [hf, Outcome.ret.injEq, Prod.mk.injEq, and_true] at ha
      subst ha
      exact ⟨(firstExactMatch_some hf).1, rfl, (firstExactMatch_some hf).2⟩

/-- Witness for C1: for the result list `the beatles`, `The Beatles` and the
query `The Beatles`, the second entry is returned. -/
theorem searchArtist_first_exact_match_witness :
    (searchArtist demoWorld ⟨"tok"⟩ "The Beatles" 0).val = .ret (theBeatles, none) ∧
    theBeatles.Name = "The Beatles" :=
  ⟨(searchArtist_first_exact_match demoWorld ⟨"tok"⟩ "The Beatles" 0 1
      ⟨[lowerBeatles, theBeatles]⟩ rfl).1 theBeatles (by decide),
   by decide⟩

/-- The three ways `searchArtist` ends.  It panics exactly when the search
returns without error and without an artists page.  It returns an error
exactly when the search request fails or the page it returned holds no entity
named `q`, and then the entity is the zero value.  With a page that holds an
entity named `q` it returns without error. -/
theorem searchArtist_outcomes {σ : Type} (w : World σ) (client : Client) (q : String)
    (s : σ) :
    ((searchArtist w client q s).val = .panic ↔
      ∃ result, (w.Search client q s).1 = .ok result ∧ result.Artists = none) ∧
    ((∃ a err, (searchArtist w client q s).val = .ret (a, some err)) ↔
      ((∃ err, (w.Search client q s).1 = .error err) ∨
       (∃ page, (w.Search client q s).1 = .ok ⟨some page⟩ ∧
          ∀ a ∈ page.Artists, a.Name ≠ q))) ∧
    (∀ a err, (searchArtist w client q s).val = .ret (a, some err) → a = FullArtist.zero) ∧
    (∀ page, (w.Search client q s).1 = .ok ⟨some page⟩ →
      (∃ a ∈ page.Artists, a.Name = q) →
      ∃ a, (searchArtist w client q s).val = .ret (a, none)) := by
  rcases hs : w.Search client q s with ⟨res, s1⟩
  cases res with
  | error err =>
    rw [searchArtist_error w client q s s1 err hs]
    simp
  | ok result =>
    rcases result with ⟨pg⟩
    cases pg with
    | none =>
      rw [searchArtist_nil_page w client q s s1 hs]
      simp
    | some page =>
      rw [searchArtist_ok w client q s s1 page hs]
      simp only [searchArtist.scan_eq_find]
      cases hf : firstExactMatch q page.Artists with
      | none =>
        have hall := firstExactMatch_none.mp hf
        refine ⟨by simp, ?_, ?_, ?_⟩
        · simp only [Outcome.ret.injEq, Prod.mk.injEq, Option.some.injEq, reduceCtorEq,
            exists_false, false_or, Except.ok.injEq, SearchResult.mk.injEq]
          constructor
          · intro _
            exact ⟨page, rfl, hall⟩
          · intro _
            exact ⟨FullArtist.zero, "artist not found", rfl, rfl⟩
        · intro a err h
          simp only [Outcome.ret.injEq, Prod.mk.injEq] at h
          exact h.1.symm
        · intro pg hpg ⟨a, ha, hq⟩
          simp only [Except.ok.injEq, SearchResult.mk.injEq, Option.some.injEq] at hpg
          subst hpg
          exact absurd hq (hall a ha)
      | some b =>
        obtain ⟨hb, before, after, hl, _⟩ := firstExactMatch_some hf
        have hmem : b ∈ page.Artists := by
          rw [hl]
          simp
        refine ⟨by simp, ?_, ?_, ?_⟩
        · simp only [Outcome.ret.injEq, Prod.mk.injEq, reduceCtorEq, and_false, exists_false,
            false_or, Except.ok.injEq, SearchResult.mk.injEq, Option.some.injEq, false_iff,
            not_exists, not_and]
          intro pg hpg hall
          subst hpg
          exact hall b hmem hb
        · intro a err h
          simp at h
        · intro _ _ _
          exact ⟨b, rfl⟩

/-- C8, evaluated at the failing input: the search for `Z` returns without
error and without an artists page, so the request did not fail and no entity
named `Z` was returned; `searchArtist` then returns neither an error nor an
entity, it panics at line 97, and with it the whole run ends with exit status
2 and no report of a failure for `Z`. -/
theorem searchArtist_nil_page_panics :
    (demoWorld.Search ⟨"tok"⟩ "Z" 0).1 = .ok ⟨none⟩ ∧
    (searchArtist demoWorld ⟨"tok"⟩ "Z" 0).val = Outcome.panic ∧
    (∀ a err, (searchArtist demoWorld ⟨"tok"⟩ "Z" 0).val ≠ .ret (a, some err)) ∧
    (main demoSlug demoWorld ⟨"id", "secret", "Z", "US", "download"⟩ 0).val = 2 ∧
    (main demoSlug demoWorld ⟨"id", "secret", "Z", "US", "download"⟩ 0).events =
      [Event.token "id" "secret", Event.printf (.banner "Z"), Event.search "Z"] := by
  refine ⟨rfl, rfl, ?_, rfl, rfl⟩
  intro a err h
  have : (searchArtist demoWorld ⟨"tok"⟩ "Z" 0).val = Outcome.panic := rfl
  rw [this] at h
  cases h

/-- C2: when the client identifier or the client secret is empty, `main` ends
with exit status 1 after a single `log.Fatalln`; no call leaves the process
(no token exchange, search, release listing, directory creation or tool run)
and the outside world is unchanged. -/
theorem main_empty_credential_fatal {σ : Type} (slugMake : String → String) (w : World σ)
    (flags : Flags) (s : σ) (h : flags.clientID = "" ∨ flags.clientSecret = "") :
    (main slugMake w flags s).val = 1 ∧
    (∃ msg, (main slugMake w flags s).events = [Event.fatalln msg]) ∧
    (∀ e ∈ (main slugMake w flags s).events, e.isCall = false) ∧
    (main slugMake w flags s).state = s := by
  by_cases h1 : flags.clientID = ""
  · simp [main, h1, Event.isCall]
  · have h2 : flags.clientSecret = "" := h.resolve_left h1
    simp [main, h1, h2, Event.isCall]

/-- Witness for C2: a run with a client identifier and an empty secret. -/
theorem main_empty_credential_fatal_witness :
    (main demoSlug demoWorld ⟨"id", "", "A,B", "US", "./download"⟩ 0).val = 1 ∧
    (main demoSlug demoWorld ⟨"id", "", "A,B", "US", "./download"⟩ 0).state = 0 :=
  have h := main_empty_credential_fatal demoSlug demoWorld
    ⟨"id", "", "A,B", "US", "./download"⟩ 0 (Or.inr rfl)
  ⟨h.1, h.2.2.2⟩

/-- C3: for a release without an entry under the key `spotify`,
`downloadAlbum` returns an error, performs no effect at all (no directory is
created, the tool is not run) and leaves the outside world unchanged. -/
theorem downloadAlbum_missing_link {σ : Type} (slugMake : String → String) (w : World σ)
    (artistName : String) (album : SimpleAlbum) (destDir : String) (s : σ)
    (h : album.ExternalURLs.lookup "spotify" = none) :
    (∃ err, (downloadAlbum slugMake w artistName album destDir s).val = some err) ∧
    (downloadAlbum slugMake w artistName album destDir s).events = [] ∧
    (downloadAlbum slugMake w artistName album destDir s).state = s := by
  simp [downloadAlbum, h]

/-- Witness for C3: the release `Help` of the example world has no catalog link. -/
theorem downloadAlbum_missing_link_witness :
    (downloadAlbum demoSlug demoWorld "The Beatles" unlinked "download" 7).events = [] ∧
    (downloadAlbum demoSlug demoWorld "The Beatles" unlinked "download" 7).state = 7 :=
  (downloadAlbum_missing_link demoSlug demoWorld "The Beatles" unlinked "download" 7
    (by decide)).2

/-- C9: `downloadAlbum` runs the tool at most once, and exactly when the
release has a link under `spotify` and `os.MkdirAll` succeeded; the run is
`spotdl url` in the computed directory; and the result is `nil` exactly when
the link is present, the directory creation succeeded and the run reported no
error. -/
theorem downloadAlbum_tool_run {σ : Type} (slugMake : String → String) (w : World σ)
    (artistName : String) (album : SimpleAlbum) (destDir : String) (s : σ) :
    (toolRuns (downloadAlbum slugMake w artistName album destDir s).events).length ≤ 1 ∧
    (∀ url, album.ExternalURLs.lookup "spotify" = some url →
      (w.MkdirAll (albumDir slugMake artistName album destDir) 493 s).1 = none →
      toolRuns (downloadAlbum slugMake w artistName album destDir s).events =
        [Event.run "spotdl" [url] (albumDir slugMake artistName album destDir)]) ∧
    (toolRuns (downloadAlbum slugMake w artistName album destDir s).events ≠ [] →
      ∃ url, album.ExternalURLs.lookup "spotify" = some url ∧
        (w.MkdirAll (albumDir slugMake artistName album destDir) 493 s).1 = none) ∧
    ((downloadAlbum slugMake w artistName album destDir s).val = none ↔
      ∃ url, album.ExternalURLs.lookup "spotify" = some url ∧
        (w.MkdirAll (albumDir slugMake artistName album destDir) 493 s).1 = none ∧
        (w.Run "spotdl" [url] (albumDir slugMake artistName album destDir)
          (w.MkdirAll (albumDir slugMake artistName album destDir) 493 s).2).1 = none) := by
  cases hl : album.ExternalURLs.lookup "spotify" with
  | none => simp [downloadAlbum, hl, toolRuns, Event.isRun]
  | some url =>
    rcases hm : w.MkdirAll (albumDir slugMake artistName album destDir) 493 s with ⟨me, s1⟩
    cases me with
    | some err => simp [downloadAlbum, hl, hm, toolRuns, Event.isRun]
    | none =>
      rcases hr : w.Run "spotdl" [url] (albumDir slugMake artistName album destDir) s1
        with ⟨re, s2⟩
      cases re with
      | some err => simp [downloadAlbum, hl, hm, hr, toolRuns, Event.isRun]
      | none => simp [downloadAlbum, hl, hm, hr, toolRuns, Event.isRun]

/-- Witness for C9: the release `Abbey Road` of the example world has a link
and its directory is created, so the tool runs once with that link. -/
theorem downloadAlbum_tool_run_witness :
    toolRuns (downloadAlbum demoSlug demoWorld "The Beatles" abbeyRoad "download" 0).events =
      [Event.run "spotdl" ["https://open.spotify.com/album/al-1"]
        (albumDir demoSlug "The Beatles" abbeyRoad "download")] :=
  (downloadAlbum_tool_run demoSlug demoWorld "The Beatles" abbeyRoad "download" 0).2.1
    "https://open.spotify.com/album/al-1" (by decide) (by decide)

/-! ### The destination directory -/

theorem splitFields_ne_nil (sep : Char) (cs : List Char) : splitFields sep cs ≠ [] := by
  cases cs with
  | nil => simp [splitFields]
  | cons c cs =>
    by_cases h : c = sep
    · simp [splitFields, h]
    · cases hs : splitFields sep cs <;> simp [splitFields, h, hs]

theorem splitFields_append_sep (sep : Char) (x y : List Char) :
    splitFields sep (x ++ sep :: y) = splitFields sep x ++ splitFields sep y := by
  induction x with
  | nil => simp [splitFields]
  | cons c cs ih =>
    by_cases h : c = sep
    · simp [splitFields, h, ih]
    · cases hs : splitFields sep cs with
      | nil => exact absurd hs (splitFields_ne_nil sep cs)
      | cons f fs => simp [splitFields, h, ih, hs]

theorem splitFields_of_not_mem (sep : Char) (x : List Char) (h : sep ∉ x) :
    splitFields sep x = [x] := by
  induction x with
  | nil => rfl
  | cons c cs ih =>
    have hc : c ≠ sep := fun e => h (by simp [e])
    have hcs : sep ∉ cs := fun e => h (by simp [e])
    simp [splitFields, hc, ih hcs]

theorem path.cleanStep_plain (rooted : Bool) (acc : List (List Char)) (e : String)
    (h : plainElem e) : path.cleanStep rooted acc e.data = e.data :: acc := by
  obtain ⟨h1, _, h3, h4⟩ := h
  simp [path.cleanStep, h1, h3, h4]

theorem path.joinChars_plain (d : List Char) (a b : String) (ha : plainElem a)
    (hb : plainElem b) :
    path.joinChars [d, a.data, b.data] =
      path.render (decide (d.head? = some '/')) (path.cleanElems d ++ [a.data, b.data]) := by
  have hsa := splitFields_of_not_mem '/' a.data ha.2.1
  have hsb := splitFields_of_not_mem '/' b.data hb.2.1
  by_cases hd : d = []
  · subst hd
    have hne : a.data ++ '/' :: b.data ≠ [] := by
      intro e
      exact ha.1 (List.append_eq_nil.mp e).1
    have hhead : (a.data ++ '/' :: b.data).head? ≠ some '/' := by
      intro e
      cases hx : a.data with
      | nil => exact ha.1 hx
      | cons c cs =>
        rw [hx] at e
        simp only [List.cons_append, List.head?_cons, Option.some.injEq] at e
        exact ha.2.1 (by simp [hx, e])
    simp only [path.joinChars, if_neg ha.1, ↓reduceIte, List.intercalate, List.intersperse,
      List.flatten, List.append_nil, List.singleton_append]
    simp only [path.cleanChars, if_neg hne, path.cleanElems, splitFields_append_sep, hsa, hsb,
      List.singleton_append, List.foldl_cons, List.foldl_nil, path.cleanStep_plain _ _ a ha,
      path.cleanStep_plain _ _ b hb, decide_eq_false hhead, splitFields]
    simp [path.cleanStep]
  · have hne : d ++ '/' :: (a.data ++ '/' :: b.data) ≠ [] := by
      intro e
      exact hd (List.append_eq_nil.mp e).1
    have hhead : (d ++ '/' :: (a.data ++ '/' :: b.data)).head? = d.head? := by
      cases d with
      | nil => exact absurd rfl hd
      | cons c cs => rfl
    simp only [path.joinChars, if_neg hd, List.intercalate, List.intersperse,
      List.flatten, List.append_nil, List.singleton_append]
    simp only [path.cleanChars, if_neg hne, path.cleanElems, splitFields_append_sep, hsa, hsb,
      hhead, List.foldl_append, List.foldl_cons, List.foldl_nil,
      path.cleanStep_plain _ _ a ha, path.cleanStep_plain _ _ b hb]
    simp

theorem intercalate_append_two (sep : List Char) (es : List (List Char)) (a b : List Char)
    (h : es ≠ []) :
    List.intercalate sep (es ++ [a, b]) = List.intercalate sep es ++ sep ++ a ++ sep ++ b := by
  induction es with
  | nil => exact absurd rfl h
  | cons e rest ih =>
    cases rest with
    | nil => simp [List.intercalate, List.intersperse, List.flatten]
    | cons e2 rest2 =>
      have ih2 := ih (by simp)
      simp only [List.intercalate, List.cons_append, List.intersperse, List.flatten,
        List.append_assoc, List.append_eq] at ih2 ⊢
      rw [ih2]

theorem path.render_append_two (r : Bool) (es : List (List Char)) (a b : List Char)
    (hes : es ≠ []) (hd : path.render r es ≠ ['.']) :
    path.render r (es ++ [a, b]) = path.render r es ++ ['/'] ++ a ++ ['/'] ++ b := by
  by_cases hout : (if r = true then ['/'] else []) ++ List.intercalate ['/'] es = []
  · exact absurd (by simp [path.render, hout]) hd
  · have h2 : (if r = true then ['/'] else []) ++
        (List.intercalate ['/'] es ++ ['/'] ++ a ++ ['/'] ++ b) ≠ [] := by
      intro e
      have := (List.append_eq_nil.mp e).2
      simp at this
    simp only [List.append_assoc] at h2
    simp only [path.render, intercalate_append_two _ _ _ _ hes, if_neg hout, if_neg h2,
      List.append_assoc]

theorem rootPlusTwo_of_clean (destDir a b : String)
    (hclean : path.Clean destDir = destDir) (hne : path.cleanElems destDir.data ≠ []) :
    rootPlusTwo destDir a b = destDir ++ "/" ++ a ++ "/" ++ b := by
  have hdata : path.cleanChars destDir.data = destDir.data := by
    have := congrArg String.data hclean
    simpa [path.Clean] using this
  have hd : destDir.data ≠ [] := by
    intro e
    rw [e] at hne
    exact hne (by simp [path.cleanElems, splitFields, path.cleanStep])
  have hdot : destDir.data ≠ ['.'] := by
    intro e
    rw [e] at hne
    exact hne (by decide)
  have hrender : path.render (decide (destDir.data.head? = some '/'))
      (path.cleanElems destDir.data) = destDir.data := by
    simpa [path.cleanChars, hd] using hdata
  apply String.ext
  simp only [rootPlusTwo, path.rooted, String.data_append]
  rw [path.render_append_two _ _ _ _ hne (by rw [hrender]; exact hdot), hrender]

theorem path.Join_plain (destDir a b : String) (ha : plainElem a) (hb : plainElem b) :
    path.Join [destDir, a, b] = rootPlusTwo destDir a b := by
  simp only [path.Join, rootPlusTwo, path.rooted, List.map_cons, List.map_nil]
  rw [path.joinChars_plain destDir.data _ _ ha hb]

theorem intercalate_cons_cons (sep x y : List Char) (zs : List (List Char)) :
    List.intercalate sep (x :: y :: zs) = x ++ sep ++ List.intercalate sep (y :: zs) := by
  simp [List.intercalate, List.intersperse, List.flatten]

theorem splitFields_intercalate_cons (sep : Char) (x : List Char) (xs : List (List Char)) :
    splitFields sep (List.intercalate [sep] (x :: xs)) =
      ((x :: xs).map (splitFields sep)).flatten := by
  induction xs generalizing x with
  | nil => simp [List.intercalate, List.intersperse, List.flatten]
  | cons y ys ih =>
    rw [intercalate_cons_cons, List.append_assoc, List.singleton_append,
      splitFields_append_sep, ih y]
    simp

theorem path.foldl_cleanStep_filter (rooted : Bool) (es : List (List Char))
    (acc : List (List Char)) :
    ((es.filter (fun e => !decide (e = []))).map (splitFields '/')).flatten.foldl
        (path.cleanStep rooted) acc =
      ((es.map (splitFields '/')).flatten).foldl (path.cleanStep rooted) acc := by
  induction es generalizing acc with
  | nil => rfl
  | cons e rest ih =>
    by_cases he : e = []
    · subst he
      simp [splitFields, path.cleanStep, ih]
    · simp [he, List.foldl_append, ih]

theorem intercalate_head (x : List Char) (xs : List (List Char)) (hx : x ≠ []) :
    (List.intercalate ['/'] (x :: xs)).head? = x.head? ∧
    List.intercalate ['/'] (x :: xs) ≠ [] := by
  cases x with
  | nil => exact absurd rfl hx
  | cons c cs =>
    cases xs with
    | nil => simp [List.intercalate, List.intersperse, List.flatten]
    | cons y ys => simp [intercalate_cons_cons]

/-- Empty elements are ignored by `path.Join`. -/
theorem path.joinChars_filter (es : List (List Char)) :
    path.joinChars (es.filter (fun e => !decide (e = []))) = path.joinChars es := by
  induction es with
  | nil => rfl
  | cons e rest ih =>
    by_cases he : e = []
    · subst he
      simpa [path.joinChars] using ih
    · have h1 := intercalate_head e rest he
      have h2 := intercalate_head e (rest.filter (fun e => !decide (e = []))) he
      have hf := path.foldl_cleanStep_filter (decide (e.head? = some '/')) rest
        (List.foldl (path.cleanStep (decide (e.head? = some '/'))) [] (splitFields '/' e))
      have hfilter : (e :: rest).filter (fun e => !decide (e = [])) =
          e :: rest.filter (fun e => !decide (e = [])) := by
        simp [List.filter_cons, he]
      rw [hfilter]
      simp only [path.joinChars, if_neg he, path.cleanChars, if_neg h1.2, if_neg h2.2,
        path.cleanElems, h1.1, h2.1, splitFields_intercalate_cons, List.map_cons,
        List.flatten_cons, List.foldl_append]
      rw [hf]

theorem path.Join_filter (elem : List String) :
    path.Join (elem.filter (fun e => decide (e ≠ ""))) = path.Join elem := by
  have h : (elem.filter (fun e => decide (e ≠ ""))).map String.data =
      (elem.map String.data).filter (fun e => !decide (e = [])) := by
    induction elem with
    | nil => rfl
    | cons e rest ih =>
      have he : (e = "") ↔ (e.data = []) := by
        constructor
        · intro h
          rw [h]
        · intro h
          exact String.ext h
      simp only [ne_eq, decide_not] at ih
      by_cases hd : e.data = []
      · simp [List.filter_cons, he.mpr hd, ih]
      · have hne : e ≠ "" := fun h => hd (he.mp h)
        simp [List.filter_cons, hne, hd, ih]
  simp only [path.Join, h, path.joinChars_filter]

/-- C6, as amended: for a release that has a catalog link, the directory that
`downloadAlbum` creates and then uses as the working directory of the tool is
`path.Join(destDir, slug(artist), slug(album))`, for every slug function;
`path.Join` ignores empty elements, so an empty slug adds no path element.
When both slugs are plain path elements (not empty, without a slash, neither
`.` nor `..`) the directory is the cleaned destination root followed by
exactly two further elements, the slug of the entity name and then the slug of
the release name; and when the root is moreover already clean and has at least
one element it is literally `destDir/slug(artist)/slug(album)`. -/
theorem downloadAlbum_dir {σ : Type} (slugMake : String → String) (w : World σ)
    (artistName : String) (album : SimpleAlbum) (destDir : String) (s : σ) (url : String)
    (hl : album.ExternalURLs.lookup "spotify" = some url) :
    mkdirDirs (downloadAlbum slugMake w artistName album destDir s).events =
      [path.Join [destDir, slugMake artistName, slugMake album.Name]] ∧
    (∀ e ∈ toolRuns (downloadAlbum slugMake w artistName album destDir s).events,
      e = Event.run "spotdl" [url]
        (path.Join [destDir, slugMake artistName, slugMake album.Name])) ∧
    path.Join [destDir, slugMake artistName, slugMake album.Name] =
      path.Join ([destDir, slugMake artistName, slugMake album.Name].filter
        (fun e => decide (e ≠ ""))) ∧
    (plainElem (slugMake artistName) → plainElem (slugMake album.Name) →
      path.Join [destDir, slugMake artistName, slugMake album.Name] =
        rootPlusTwo destDir (slugMake artistName) (slugMake album.Name) ∧
      (path.Clean destDir = destDir → path.cleanElems destDir.data ≠ [] →
        path.Join [destDir, slugMake artistName, slugMake album.Name] =
          destDir ++ "/" ++ slugMake artistName ++ "/" ++ slugMake album.Name)) := by
  have hdir : albumDir slugMake artistName album destDir =
      path.Join [destDir, slugMake artistName, slugMake album.Name] := rfl
  refine ⟨?_, ?_, (path.Join_filter _).symm, ?_⟩
  · rw [← hdir]
    rcases hm : w.MkdirAll (albumDir slugMake artistName album destDir) 493 s with ⟨me, s1⟩
    cases me with
    | some err => simp [downloadAlbum, hl, hm, mkdirDirs, Event.mkdirDir?]
    | none =>
      rcases hr : w.Run "spotdl" [url] (albumDir slugMake artistName album destDir) s1
        with ⟨re, s2⟩
      cases re <;> simp [downloadAlbum, hl, hm, hr, mkdirDirs, Event.mkdirDir?]
  · rw [← hdir]
    rcases hm : w.MkdirAll (albumDir slugMake artistName album destDir) 493 s with ⟨me, s1⟩
    cases me with
    | some err => simp [downloadAlbum, hl, hm, toolRuns, Event.isRun]
    | none =>
      rcases hr : w.Run "spotdl" [url] (albumDir slugMake artistName album destDir) s1
        with ⟨re, s2⟩
      cases re <;> simp [downloadAlbum, hl, hm, hr, toolRuns, Event.isRun]
  · intro h1 h2
    have hj := path.Join_plain destDir _ _ h1 h2
    refine ⟨hj, ?_⟩
    intro hc hne
    rw [hj]
    exact rootPlusTwo_of_clean destDir _ _ hc hne

/-- Witness for C6 as amended: with the slugs `the-beatles` and `abbey-road`
under the root `download`, the directory created is
`download/the-beatles/abbey-road`. -/
theorem downloadAlbum_dir_witness :
    mkdirDirs (downloadAlbum
      (fun n => if n = "The Beatles" then "the-beatles" else "abbey-road")
      demoWorld "The Beatles" abbeyRoad "download" 0).events =
      [path.Join ["download", "the-beatles", "abbey-road"]] ∧
    path.Join ["download", "the-beatles", "abbey-road"] = "download/the-beatles/abbey-road" :=
  ⟨(downloadAlbum_dir (fun n => if n = "The Beatles" then "the-beatles" else "abbey-road")
      demoWorld "The Beatles" abbeyRoad "download" 0 "https://open.spotify.com/album/al-1"
      (by decide)).1,
   by decide⟩

/-- C6, counterexample: for the entity `!!!`, whose slug is empty, and the
release `Abbey Road` under the root `download`, the directory created and used
is `download/abbey-road`: the root followed by one path element, not two, and
not `download//abbey-road`. -/
theorem downloadAlbum_dir_empty_slug :
    punctSlug "!!!" = "" ∧ punctSlug abbeyRoad.Name = "abbey-road" ∧
    (downloadAlbum punctSlug demoWorld "!!!" abbeyRoad "download" 0).events =
      [Event.mkdirAll "download/abbey-road" 493,
       Event.run "spotdl" ["https://open.spotify.com/album/al-1"] "download/abbey-road"] ∧
    "download/abbey-road" ≠
      "download" ++ "/" ++ punctSlug "!!!" ++ "/" ++ punctSlug abbeyRoad.Name ∧
    path.cleanElems ("download/abbey-road" : String).data =
      path.cleanElems ("download" : String).data ++ [("abbey-road" : String).data] := by
  decide

/-! ### The loops of `main` -/

theorem getAlbums_events {σ : Type} (w : World σ) (client : Client) (artistID market : String)
    (s : σ) : (getAlbums w client artistID market s).events =
      [Event.getArtistAlbums artistID market] := by
  rcases h : w.GetArtistAlbums client artistID market s with ⟨res, s1⟩
  cases res <;> simp [getAlbums, h]

theorem searchArtist_events {σ : Type} (w : World σ) (client : Client) (q : String) (s : σ) :
    (searchArtist w client q s).events = [Event.search q] := by
  rcases h : w.Search client q s with ⟨res, s1⟩
  cases res with
  | error err => simp [searchArtist, h]
  | ok result =>
    rcases result with ⟨pg⟩
    cases pg <;> simp [searchArtist, h]

/-- The effects of `downloadAlbum` are an optional `os.MkdirAll` followed by
an optional tool run, both in the computed directory. -/
theorem downloadAlbum_events {σ : Type} (slugMake : String → String) (w : World σ)
    (artistName : String) (album : SimpleAlbum) (destDir : String) (s : σ) :
    (album.hasLink = false ∧
      (downloadAlbum slugMake w artistName album destDir s).events = []) ∨
    (album.hasLink = true ∧
      ((downloadAlbum slugMake w artistName album destDir s).events =
        [Event.mkdirAll (albumDir slugMake artistName album destDir) 493] ∨
       ∃ url, (downloadAlbum slugMake w artistName album destDir s).events =
        [Event.mkdirAll (albumDir slugMake artistName album destDir) 493,
         Event.run "spotdl" [url] (albumDir slugMake artistName album destDir)])) := by
  cases hl : album.ExternalURLs.lookup "spotify" with
  | none => simp [downloadAlbum, hl, SimpleAlbum.hasLink]
  | some url =>
    rcases hm : w.MkdirAll (albumDir slugMake artistName album destDir) 493 s with ⟨me, s1⟩
    cases me with
    | some err => simp [downloadAlbum, hl, hm, SimpleAlbum.hasLink]
    | none =>
      rcases hr : w.Run "spotdl" [url] (albumDir slugMake artistName album destDir) s1
        with ⟨re, s2⟩
      cases re <;> simp [downloadAlbum, hl, hm, hr, SimpleAlbum.hasLink]

theorem main.albums_observed {σ : Type} (slugMake : String → String) (w : World σ)
    (artistName destDir : String) (albums : List SimpleAlbum) (s : σ) :
    downloadingNames (main.albums slugMake w artistName destDir albums s).events =
      albums.map (fun al => al.Name) ∧
    mkdirDirs (main.albums slugMake w artistName destDir albums s).events =
      (albums.filter SimpleAlbum.hasLink).map
        (fun al => albumDir slugMake artistName al destDir) ∧
    searchQueries (main.albums slugMake w artistName destDir albums s).events = [] ∧
    ∀ q, searchFailures q (main.albums slugMake w artistName destDir albums s).events = [] := by
  induction albums generalizing s with
  | nil => simp [main.albums, downloadingNames, mkdirDirs, searchQueries, searchFailures]
  | cons album rest ih =>
    obtain ⟨ih1, ih2, ih3, ih4⟩ :=
      ih (downloadAlbum slugMake w artistName album destDir s).state
    have hrep : ∀ o : Option Error,
        List.filterMap Event.downloadingName? (main.report o) = [] ∧
        List.filterMap Event.mkdirDir? (main.report o) = [] ∧
        List.filterMap Event.searchQuery? (main.report o) = [] ∧
        ∀ q, List.filterMap (Event.searchFailure? q) (main.report o) = [] := by
      intro o
      cases o <;>
        simp [main.report, Event.downloadingName?, Event.mkdirDir?, Event.searchQuery?,
          Event.searchFailure?]
    obtain ⟨f1, f2, f3, f4⟩ :=
      hrep (downloadAlbum slugMake w artistName album destDir s).val
    simp only [downloadingNames, mkdirDirs, searchQueries, searchFailures] at ih1 ih2 ih3 ih4 ⊢
    rcases downloadAlbum_events slugMake w artistName album destDir s with
      ⟨hl, he⟩ | ⟨hl, he | ⟨url, he⟩⟩
    all_goals
      simp only [main.albums, he, List.filterMap_cons, List.filterMap_append, ih1, ih2, ih3,
        ih4, f1, f2, f3, f4, List.filter_cons, hl]
      simp [Event.downloadingName?, Event.mkdirDir?, Event.searchQuery?,
        Event.searchFailure?]

theorem main.artist_failed {σ : Type} (slugMake : String → String) (w : World σ)
    (client : Client) (market destDir q : String) (s : σ) (a : FullArtist) (err : Error)
    (h : (searchArtist w client q s).val = .ret (a, some err)) :
    main.artist slugMake w client market destDir q s =
      ⟨.ret (), [Event.printf (.banner q), Event.search q,
          Event.printf (.artistNotFound q err)],
        (searchArtist w client q s).state⟩ := by
  have he := searchArtist_events w client q s
  simp [main.artist, h, he]

theorem main.artist_panic {σ : Type} (slugMake : String → String) (w : World σ)
    (client : Client) (market destDir q : String) (s : σ)
    (h : (searchArtist w client q s).val = .panic) :
    main.artist slugMake w client market destDir q s =
      ⟨.panic, [Event.printf (.banner q), Event.search q],
        (searchArtist w client q s).state⟩ := by
  have he := searchArtist_events w client q s
  simp [main.artist, h, he]

theorem main.artist_found {σ : Type} (slugMake : String → String) (w : World σ)
    (client : Client) (market destDir q : String) (s : σ) (artist : FullArtist)
    (h : (searchArtist w client q s).val = .ret (artist, none)) :
    (main.artist slugMake w client market destDir q s).val = .ret () ∧
    ∃ tail, (main.artist slugMake w client market destDir q s).events =
      Event.printf (.banner q) :: Event.search q :: Event.printf .lookingForAlbums ::
        Event.getArtistAlbums artist.ID market :: tail ∧
      searchQueries tail = [] ∧ (∀ q1, searchFailures q1 tail = []) ∧
      ∀ albums, (getAlbums w client artist.ID market (searchArtist w client q s).state).val =
          (albums, none) →
        downloadingNames tail = albums.map (fun al => al.Name) ∧
        mkdirDirs tail = (albums.filter SimpleAlbum.hasLink).map
          (fun al => albumDir slugMake artist.Name al destDir) := by
  have he := searchArtist_events w client q s
  have hg := getAlbums_events w client artist.ID market (searchArtist w client q s).state
  rcases hv : (getAlbums w client artist.ID market (searchArtist w client q s).state).val
    with ⟨albums, o⟩
  cases o with
  | some err =>
    refine ⟨by simp [main.artist, h, hv], [Event.printf (.albumsNotFound err)], ?_, ?_, ?_, ?_⟩
    · simp [main.artist, h, he, hg, hv]
    · simp [searchQueries, Event.searchQuery?]
    · simp [searchFailures, Event.searchFailure?]
    · intro albums2 h2
      simp at h2
  | none =>
    obtain ⟨o1, o2, o3, o4⟩ := main.albums_observed slugMake w artist.Name destDir albums
      (getAlbums w client artist.ID market (searchArtist w client q s).state).state
    refine ⟨by simp [main.artist, h, hv], Event.printf (.foundAlbums albums.length) ::
      ((main.albums slugMake w artist.Name destDir albums
        (getAlbums w client artist.ID market (searchArtist w client q s).state).state).events ++
        [Event.printf (.footer q.utf8ByteSize)]), ?_, ?_, ?_, ?_⟩
    · simp [main.artist, h, he, hg, hv]
    · simp only [searchQueries] at o3 ⊢
      simp [List.filterMap_cons, List.filterMap_append, o3, Event.searchQuery?]
    · intro q1
      have := o4 q1
      simp only [searchFailures] at this ⊢
      simp [List.filterMap_cons, List.filterMap_append, this, Event.searchFailure?]
    · intro albums2 h2
      simp only [Prod.mk.injEq, and_true] at h2
      subst h2
      simp only [downloadingNames, mkdirDirs] at o1 o2 ⊢
      simp [List.filterMap_cons, List.filterMap_append, o1, o2, Event.downloadingName?,
        Event.mkdirDir?]

/-- The body of the loop returns whenever `searchArtist` returns, whatever the
search, the listing and the downloads gave. -/
theorem main.artist_returns {σ : Type} (slugMake : String → String) (w : World σ)
    (client : Client) (market destDir q : String) (s : σ) (a : FullArtist)
    (o : Option Error) (h : (searchArtist w client q s).val = .ret (a, o)) :
    (main.artist slugMake w client market destDir q s).val = .ret () := by
  cases o with
  | some err => rw [main.artist_failed slugMake w client market destDir q s a err h]
  | none => exact (main.artist_found slugMake w client market destDir q s a h).1

theorem main.artist_searchQueries {σ : Type} (slugMake : String → String) (w : World σ)
    (client : Client) (market destDir q : String) (s : σ) :
    searchQueries (main.artist slugMake w client market destDir q s).events = [q] := by
  rcases hv : (searchArtist w client q s).val with ⟨a, o⟩ | _
  · cases o with
    | some err =>
      rw [main.artist_failed slugMake w client market destDir q s a err hv]
      simp [searchQueries, Event.searchQuery?]
    | none =>
      obtain ⟨_, tail, h1, h2, _⟩ :=
        main.artist_found slugMake w client market destDir q s a hv
      rw [h1]
      simp only [searchQueries] at h2 ⊢
      simp [List.filterMap_cons, h2, Event.searchQuery?]
  · rw [main.artist_panic slugMake w client market destDir q s hv]
    simp [searchQueries, Event.searchQuery?]

theorem main.artists_cons {σ : Type} (slugMake : String → String) (w : World σ)
    (client : Client) (market destDir q : String) (rest : List String) (s : σ)
    (h : (main.artist slugMake w client market destDir q s).val = .ret ()) :
    main.artists slugMake w client market destDir (q :: rest) s =
      ⟨(main.artists slugMake w client market destDir rest
          (main.artist slugMake w client market destDir q s).state).val,
        (main.artist slugMake w client market destDir q s).events ++
          (main.artists slugMake w client market destDir rest
            (main.artist slugMake w client market destDir q s).state).events,
        (main.artists slugMake w client market destDir rest
          (main.artist slugMake w client market destDir q s).state).state⟩ := by
  simp [main.artists, h]

theorem main.artists_cons_panic {σ : Type} (slugMake : String → String) (w : World σ)
    (client : Client) (market destDir q : String) (rest : List String) (s : σ)
    (h : (main.artist slugMake w client market destDir q s).val = .panic) :
    main.artists slugMake w client market destDir (q :: rest) s =
      ⟨.panic, (main.artist slugMake w client market destDir q s).events,
        (main.artist slugMake w client market destDir q s).state⟩ := by
  simp [main.artists, h]

theorem main.artists_append {σ : Type} (slugMake : String → String) (w : World σ)
    (client : Client) (market destDir : String) (names1 names2 : List String) (s : σ)
    (h : (main.artists slugMake w client market destDir names1 s).val = .ret ()) :
    (main.artists slugMake w client market destDir (names1 ++ names2) s).events =
      (main.artists slugMake w client market destDir names1 s).events ++
      (main.artists slugMake w client market destDir names2
        (main.artists slugMake w client market destDir names1 s).state).events ∧
    (main.artists slugMake w client market destDir (names1 ++ names2) s).state =
      (main.artists slugMake w client market destDir names2
        (main.artists slugMake w client market destDir names1 s).state).state ∧
    (main.artists slugMake w client market destDir (names1 ++ names2) s).val =
      (main.artists slugMake w client market destDir names2
        (main.artists slugMake w client market destDir names1 s).state).val := by
  induction names1 generalizing s with
  | nil => simp [main.artists]
  | cons q rest ih =>
    rcases hq : (main.artist slugMake w client market destDir q s).val with ⟨_⟩ | _
    · rw [main.artists_cons slugMake w client market destDir q rest s hq] at h
      obtain ⟨ih1, ih2, ih3⟩ := ih (main.artist slugMake w client market destDir q s).state h
      rw [List.cons_append, main.artists_cons slugMake w client market destDir q _ s hq,
        main.artists_cons slugMake w client market destDir q rest s hq]
      simp [ih1, ih2, ih3]
    · rw [main.artists_cons_panic slugMake w client market destDir q rest s hq] at h
      cases h

theorem main.artists_searchQueries {σ : Type} (slugMake : String → String) (w : World σ)
    (client : Client) (market destDir : String) (names : List String) (s : σ)
    (h : (main.artists slugMake w client market destDir names s).val = .ret ()) :
    searchQueries (main.artists slugMake w client market destDir names s).events = names := by
  induction names generalizing s with
  | nil => simp [main.artists, searchQueries]
  | cons q rest ih =>
    rcases hq : (main.artist slugMake w client market destDir q s).val with ⟨_⟩ | _
    · rw [main.artists_cons slugMake w client market destDir q rest s hq] at h ⊢
      have h1 := main.artist_searchQueries slugMake w client market destDir q s
      have h2 := ih (main.artist slugMake w client market destDir q s).state h
      simp only [searchQueries] at h1 h2 ⊢
      simp [List.filterMap_append, h1, h2]
    · rw [main.artists_cons_panic slugMake w client market destDir q rest s hq] at h
      cases h

/-- In a world where every successful search carries an artists page, no
search panics and the loop over the names runs to its end. -/
theorem main.artists_total {σ : Type} (slugMake : String → String) (w : World σ)
    (client : Client) (market destDir : String) (hw : w.pagesPresent)
    (names : List String) (s : σ) :
    (main.artists slugMake w client market destDir names s).val = .ret () := by
  induction names generalizing s with
  | nil => rfl
  | cons q rest ih =>
    have hq : (main.artist slugMake w client market destDir q s).val = .ret () := by
      rcases hv : (searchArtist w client q s).val with ⟨a, o⟩ | _
      · exact main.artist_returns slugMake w client market destDir q s a o hv
      · obtain ⟨result, h1, h2⟩ := (searchArtist_outcomes w client q s).1.mp hv
        exact absurd h2 (hw client q s result h1)
    rw [main.artists_cons slugMake w client market destDir q rest s hq]
    exact ih _

theorem main_authenticated {σ : Type} (slugMake : String → String) (w : World σ)
    (flags : Flags) (s s1 : σ) (tok : String) (h1 : flags.clientID ≠ "")
    (h2 : flags.clientSecret ≠ "")
    (h3 : w.Token flags.clientID flags.clientSecret s = (.ok tok, s1)) :
    (main slugMake w flags s).events =
      Event.token flags.clientID flags.clientSecret ::
        (main.artists slugMake w ⟨tok⟩ flags.market flags.destDir
          (strings.Split flags.artistsStr ',') s1).events ∧
    ((main slugMake w flags s).val = 0 ↔
      (main.artists slugMake w ⟨tok⟩ flags.market flags.destDir
        (strings.Split flags.artistsStr ',') s1).val = .ret ()) := by
  rcases hv : (main.artists slugMake w ⟨tok⟩ flags.market flags.destDir
    (strings.Split flags.artistsStr ',') s1).val with ⟨_⟩ | _
  · simp [main, h1, h2, newClient, h3, hv]
  · simp [main, h1, h2, newClient, h3, hv]

theorem splitFields_length (sep : Char) (cs : List Char) :
    (splitFields sep cs).length = cs.count sep + 1 := by
  induction cs with
  | nil => rfl
  | cons c rest ih =>
    by_cases h : c = sep
    · simp [splitFields, h, ih]
    · cases hs : splitFields sep rest with
      | nil => exact absurd hs (splitFields_ne_nil sep rest)
      | cons f fs =>
        rw [hs] at ih
        simp only [splitFields, if_neg h, hs, List.length_cons] at ih ⊢
        rw [List.count_cons_of_ne (fun e => h e.symm)]
        exact ih

theorem splitFields_intercalate (sep : Char) (cs : List Char) :
    List.intercalate [sep] (splitFields sep cs) = cs := by
  induction cs with
  | nil => rfl
  | cons c rest ih =>
    cases hs : splitFields sep rest with
    | nil => exact absurd hs (splitFields_ne_nil sep rest)
    | cons f fs =>
      rw [hs] at ih
      by_cases h : c = sep
      · subst h
        simp only [splitFields, if_true, hs]
        simp only [List.intercalate, List.intersperse, List.flatten, List.nil_append,
          List.singleton_append] at ih ⊢
        rw [ih]
      · simp only [splitFields, if_neg h, hs]
        cases fs with
        | nil =>
          simp only [List.intercalate, List.intersperse, List.flatten, List.append_nil]
            at ih ⊢
          rw [ih]
        | cons g gs =>
          simp only [List.intercalate, List.intersperse, List.flatten, List.cons_append]
            at ih ⊢
          rw [ih]

theorem splitFields_no_sep (sep : Char) (cs : List Char) :
    ∀ f ∈ splitFields sep cs, sep ∉ f := by
  induction cs with
  | nil => simp [splitFields]
  | cons c rest ih =>
    by_cases h : c = sep
    · intro f hf
      simp only [splitFields, if_pos h, List.mem_cons] at hf
      rcases hf with rfl | hf
      · simp
      · exact ih f hf
    · cases hs : splitFields sep rest with
      | nil => exact absurd hs (splitFields_ne_nil sep rest)
      | cons g gs =>
        rw [hs] at ih
        intro f hf
        simp only [splitFields, if_neg h, hs, List.mem_cons] at hf
        rcases hf with rfl | hf
        · intro hmem
          rcases List.mem_cons.mp hmem with e | e
          · exact h e.symm
          · exact ih g (by simp) e
        · exact ih f (by simp [hf])

/-- C4: no early abort on a release failure.  In every world, so whatever the
outcome of each attempt, the inner loop announces and calls `downloadAlbum`
once for every release of the list, in list order, and `os.MkdirAll` is called
once for every release that has a link, in list order; after a failed attempt
the failure is logged and the rest of the list is processed; the same holds for
the run of one entity whose search and release listing succeed.  Whatever
happened to the releases of a name whose search returned, the names after it
are processed next; a list of names whose first part runs to its end is
processed as that part followed by the second part; in a run of the loop that
reaches its end every name is searched once, in order; and the loop reaches
its end in every world whose successful searches carry an artists page. -/
theorem main_no_early_abort {σ : Type} (slugMake : String → String) (w : World σ)
    (client : Client) (market destDir : String) :
    (∀ artistName albums s,
      downloadingNames (main.albums slugMake w artistName destDir albums s).events =
        albums.map (fun al => al.Name) ∧
      mkdirDirs (main.albums slugMake w artistName destDir albums s).events =
        (albums.filter SimpleAlbum.hasLink).map
          (fun al => albumDir slugMake artistName al destDir)) ∧
    (∀ artistName album rest s err,
      (downloadAlbum slugMake w artistName album destDir s).val = some err →
      (main.albums slugMake w artistName destDir (album :: rest) s).events =
        Event.printf (.downloading album.Name) ::
          ((downloadAlbum slugMake w artistName album destDir s).events ++
            Event.printf (.couldntDownload err) ::
            (main.albums slugMake w artistName destDir rest
              (downloadAlbum slugMake w artistName album destDir s).state).events)) ∧
    (∀ q s artist albums, (searchArtist w client q s).val = .ret (artist, none) →
      (getAlbums w client artist.ID market (searchArtist w client q s).state).val =
        (albums, none) →
      downloadingNames (main.artist slugMake w client market destDir q s).events =
        albums.map (fun al => al.Name) ∧
      mkdirDirs (main.artist slugMake w client market destDir q s).events =
        (albums.filter SimpleAlbum.hasLink).map
          (fun al => albumDir slugMake artist.Name al destDir)) ∧
    (∀ q rest s a o, (searchArtist w client q s).val = .ret (a, o) →
      (main.artists slugMake w client market destDir (q :: rest) s).events =
        (main.artist slugMake w client market destDir q s).events ++
        (main.artists slugMake w client market destDir rest
          (main.artist slugMake w client market destDir q s).state).events) ∧
    (∀ names1 names2 s,
      (main.artists slugMake w client market destDir names1 s).val = .ret () →
      (main.artists slugMake w client market destDir (names1 ++ names2) s).events =
        (main.artists slugMake w client market destDir names1 s).events ++
        (main.artists slugMake w client market destDir names2
          (main.artists slugMake w client market destDir names1 s).state).events) ∧
    (∀ names s, (main.artists slugMake w client market destDir names s).val = .ret () →
      searchQueries (main.artists slugMake w client market destDir names s).events =
        names) ∧
    (w.pagesPresent → ∀ names s,
      (main.artists slugMake w client market destDir names s).val = .ret ()) := by
  refine ⟨?_, ?_, ?_, ?_, ?_, ?_, ?_⟩
  · intro artistName albums s
    have h := main.albums_observed slugMake w artistName destDir albums s
    exact ⟨h.1, h.2.1⟩
  · intro artistName album rest s err h
    simp [main.albums, h, main.report]
  · intro q s artist albums hs hg
    obtain ⟨_, tail, h1, _, _, h4⟩ :=
      main.artist_found slugMake w client market destDir q s artist hs
    obtain ⟨h5, h6⟩ := h4 albums hg
    rw [h1]
    simp only [downloadingNames, mkdirDirs] at h5 h6 ⊢
    simp [List.filterMap_cons, h5, h6, Event.downloadingName?, Event.mkdirDir?]
  · intro q rest s a o h
    rw [main.artists_cons slugMake w client market destDir q rest s
      (main.artist_returns slugMake w client market destDir q s a o h)]
  · intro names1 names2 s h
    exact (main.artists_append slugMake w client market destDir names1 names2 s h).1
  · intro names s h
    exact main.artists_searchQueries slugMake w client market destDir names s h
  · intro hw names s
    exact main.artists_total slugMake w client market destDir hw names s

/-- Witness for C4: in the example world the first release has no link and
fails, and the second release is still downloaded. -/
theorem main_no_early_abort_witness :
    downloadingNames
        (main.artist demoSlug demoWorld ⟨"tok"⟩ "US" "download" "The Beatles" 0).events =
      ["Help", "Abbey Road"] ∧
    mkdirDirs (main.artist demoSlug demoWorld ⟨"tok"⟩ "US" "download" "The Beatles" 0).events =
      ["download/x/x"] :=
  (main_no_early_abort demoSlug demoWorld ⟨"tok"⟩ "US" "download").2.2.1 "The Beatles" 0
    theBeatles [unlinked, abbeyRoad] (by decide) (by decide)

/-- A name whose search returns an error adds exactly three effects to the
run, the banner, the search request and one report of the failure, so no
release listing and no fetch happen for it; when the names before it ran to
their end, the names after it are processed from the state the failed search
left. -/
theorem main.artists_failed_search {σ : Type} (slugMake : String → String) (w : World σ)
    (client : Client) (market destDir : String) (before : List String) (q : String)
    (after : List String) (s : σ) (a : FullArtist) (err : Error)
    (hb : (main.artists slugMake w client market destDir before s).val = .ret ())
    (h : (searchArtist w client q
      (main.artists slugMake w client market destDir before s).state).val =
        .ret (a, some err)) :
    (main.artists slugMake w client market destDir (before ++ q :: after) s).events =
      (main.artists slugMake w client market destDir before s).events ++
      [Event.printf (.banner q), Event.search q, Event.printf (.artistNotFound q err)] ++
      (main.artists slugMake w client market destDir after
        (searchArtist w client q
          (main.artists slugMake w client market destDir before s).state).state).events := by
  rw [(main.artists_append slugMake w client market destDir before (q :: after) s hb).1]
  have hf := main.artist_failed slugMake w client market destDir q _ a err h
  rw [main.artists_cons slugMake w client market destDir q after _ (by rw [hf])]
  simp only [hf, List.append_assoc]

/-- The run for the names parameter `A,B` when the search for `A` returns an
error and the search for `B` finds an entity whose releases are listed: the
run ends normally, both names are searched, exactly one failure is reported
for `A` and none for `B`, the releases of the entity found for `B` are listed,
and every one of them is announced and attempted, in list order. -/
theorem main_failed_then_found {σ : Type} (slugMake : String → String) (w : World σ)
    (market destDir clientID clientSecret : String) (s s1 : σ) (tok : String)
    (a : FullArtist) (errA : Error) (artistB : FullArtist) (albums : List SimpleAlbum)
    (h1 : clientID ≠ "") (h2 : clientSecret ≠ "")
    (h3 : w.Token clientID clientSecret s = (.ok tok, s1))
    (hA : (searchArtist w ⟨tok⟩ "A" s1).val = .ret (a, some errA))
    (hB : (searchArtist w ⟨tok⟩ "B" (searchArtist w ⟨tok⟩ "A" s1).state).val =
      .ret (artistB, none))
    (hL : (getAlbums w ⟨tok⟩ artistB.ID market
      (searchArtist w ⟨tok⟩ "B" (searchArtist w ⟨tok⟩ "A" s1).state).state).val =
        (albums, none)) :
    (main slugMake w ⟨clientID, clientSecret, "A,B", market, destDir⟩ s).val = 0 ∧
    searchQueries (main slugMake w ⟨clientID, clientSecret, "A,B", market, destDir⟩ s).events =
      ["A", "B"] ∧
    searchFailures "A"
      (main slugMake w ⟨clientID, clientSecret, "A,B", market, destDir⟩ s).events = [errA] ∧
    searchFailures "B"
      (main slugMake w ⟨clientID, clientSecret, "A,B", market, destDir⟩ s).events = [] ∧
    Event.getArtistAlbums artistB.ID market ∈
      (main slugMake w ⟨clientID, clientSecret, "A,B", market, destDir⟩ s).events ∧
    downloadingNames
      (main slugMake w ⟨clientID, clientSecret, "A,B", market, destDir⟩ s).events =
      albums.map (fun al => al.Name) ∧
    mkdirDirs (main slugMake w ⟨clientID, clientSecret, "A,B", market, destDir⟩ s).events =
      (albums.filter SimpleAlbum.hasLink).map
        (fun al => albumDir slugMake artistB.Name al destDir) := by
  have hsplit : strings.Split "A,B" ',' = ["A", "B"] := by decide
  obtain ⟨hev, hval⟩ := main_authenticated slugMake w
    ⟨clientID, clientSecret, "A,B", market, destDir⟩ s s1 tok h1 h2 h3
  simp only [hsplit] at hev hval
  have hfA := main.artist_failed slugMake w ⟨tok⟩ market destDir "A" s1 a errA hA
  obtain ⟨hretB, tail, ht, h8, h4, h5⟩ :=
    main.artist_found slugMake w ⟨tok⟩ market destDir "B"
      (searchArtist w ⟨tok⟩ "A" s1).state artistB hB
  obtain ⟨h6, h7⟩ := h5 albums hL
  have hloop : main.artists slugMake w ⟨tok⟩ market destDir ["A", "B"] s1 =
      ⟨.ret (), [Event.printf (.banner "A"), Event.search "A",
          Event.printf (.artistNotFound "A" errA)] ++
        (Event.printf (.banner "B") :: Event.search "B" :: Event.printf .lookingForAlbums ::
          Event.getArtistAlbums artistB.ID market :: tail),
        (main.artist slugMake w ⟨tok⟩ market destDir "B"
          (searchArtist w ⟨tok⟩ "A" s1).state).state⟩ := by
    rw [main.artists_cons slugMake w ⟨tok⟩ market destDir "A" ["B"] s1 (by rw [hfA])]
    simp only [hfA]
    rw [main.artists_cons slugMake w ⟨tok⟩ market destDir "B" [] _ hretB]
    simp [main.artists, ht]
  have hAB : ("A" : String) ≠ "B" := by decide
  have h4A := h4 "A"
  have h4B := h4 "B"
  rw [hloop] at hev hval
  rw [hev]
  simp only [searchFailures, searchQueries, downloadingNames, mkdirDirs] at h4A h4B h6 h7 h8
  simp only [searchFailures, searchQueries, downloadingNames, mkdirDirs]
  refine ⟨hval.mpr rfl, ?_, ?_, ?_, ?_, ?_, ?_⟩
  · simp [List.filterMap_cons, h8, Event.searchQuery?]
  · simp [List.filterMap_cons, h4A, Event.searchFailure?]
  · simp [List.filterMap_cons, h4B, Event.searchFailure?, hAB]
  · simp
  · simp [List.filterMap_cons, h6, Event.downloadingName?]
  · simp [List.filterMap_cons, h7, Event.mkdirDir?]

/-- C5, evaluated at the failing input: names `A,Z,B`, where the search for
`A` fails with an error, the search for `Z` returns without error and without
an artists page, and the search for `B` would succeed.  The failure of `A` is
reported once and `Z` is searched; there the run panics at line 97 and ends
with exit status 2: no failure is reported for `Z`, whose search matched no
entity, and the later name `B` is never searched, listed or fetched. -/
theorem main_search_failure_then_panic :
    strings.Split "A,Z,B" ',' = ["A", "Z", "B"] ∧
    (main demoSlug demoWorld ⟨"id", "secret", "A,Z,B", "US", "download"⟩ 0).val = 2 ∧
    (main demoSlug demoWorld ⟨"id", "secret", "A,Z,B", "US", "download"⟩ 0).events =
      [Event.token "id" "secret",
       Event.printf (.banner "A"), Event.search "A",
       Event.printf (.artistNotFound "A" "timeout"),
       Event.printf (.banner "Z"), Event.search "Z"] ∧
    searchFailures "Z"
      (main demoSlug demoWorld ⟨"id", "secret", "A,Z,B", "US", "download"⟩ 0).events = [] ∧
    "B" ∉ searchQueries
      (main demoSlug demoWorld ⟨"id", "secret", "A,Z,B", "US", "download"⟩ 0).events ∧
    (searchArtist demoWorld ⟨"tok"⟩ "B" 3).val = .ret (artistB, none) := by
  decide

/-- In a run that passes the credential checks, obtains a token and ends
normally, the queries passed to the search, in order, are exactly the fields
of the names parameter split at every comma: one search per field, `n + 1`
searches for `n` commas, no field contains a comma, the fields joined by
commas give back the parameter, and the empty parameter gives one search with
the empty query. -/
theorem main_search_queries_completed {σ : Type} (slugMake : String → String)
    (w : World σ) (flags : Flags) (s s1 : σ) (tok : String) (h1 : flags.clientID ≠ "")
    (h2 : flags.clientSecret ≠ "")
    (h3 : w.Token flags.clientID flags.clientSecret s = (.ok tok, s1))
    (h4 : (main slugMake w flags s).val = 0) :
    searchQueries (main slugMake w flags s).events = strings.Split flags.artistsStr ',' ∧
    (searchQueries (main slugMake w flags s).events).length =
      flags.artistsStr.data.count ',' + 1 ∧
    (∀ f ∈ searchQueries (main slugMake w flags s).events, ',' ∉ f.data) ∧
    List.intercalate [','] ((searchQueries (main slugMake w flags s).events).map String.data) =
      flags.artistsStr.data ∧
    (flags.artistsStr = "" → searchQueries (main slugMake w flags s).events = [""]) := by
  obtain ⟨hev, hval⟩ := main_authenticated slugMake w flags s s1 tok h1 h2 h3
  have hq : searchQueries (main slugMake w flags s).events =
      strings.Split flags.artistsStr ',' := by
    rw [hev]
    have := main.artists_searchQueries slugMake w ⟨tok⟩ flags.market flags.destDir
      (strings.Split flags.artistsStr ',') s1 (hval.mp h4)
    simp only [searchQueries] at this ⊢
    simp [List.filterMap_cons, this, Event.searchQuery?]
  rw [hq]
  refine ⟨rfl, ?_, ?_, ?_, ?_⟩
  · simp [strings.Split, splitFields_length]
  · intro f hf
    simp only [strings.Split, List.mem_map] at hf
    obtain ⟨g, hg, rfl⟩ := hf
    exact splitFields_no_sep ',' _ g hg
  · have : (strings.Split flags.artistsStr ',').map String.data =
        splitFields ',' flags.artistsStr.data := by
      simp [strings.Split, List.map_map, Function.comp_def]
    rw [this, splitFields_intercalate]
  · intro he
    rw [he]
    rfl

/-- C7, evaluated at the failing input: names `Z,B`, where the search for `Z`
returns without error and without an artists page.  The parameter splits into
the two fields `Z` and `B`, but only `Z` is passed to the search: the run
panics at line 97 and ends with exit status 2 before the field `B` is
reached. -/
theorem main_panic_drops_later_fields :
    strings.Split "Z,B" ',' = ["Z", "B"] ∧
    searchQueries
      (main demoSlug demoWorld ⟨"id", "secret", "Z,B", "US", "download"⟩ 0).events = ["Z"] ∧
    (main demoSlug demoWorld ⟨"id", "secret", "Z,B", "US", "download"⟩ 0).val = 2 ∧
    (main demoSlug demoWorld ⟨"id", "secret", "Z,B", "US", "download"⟩ 0).events =
      [Event.token "id" "secret", Event.printf (.banner "Z"), Event.search "Z"] := by
  decide

end Spot
